import Mathlib

/-!
Verification development for the tuqtng query-engine excerpt: the simple
planner (`planner/simple`), its index-usability analysis (`index.go`), the
Offset pipeline operator (`xpipeline/offset.go`) and the parser's AST-shape
tests.  Go code is shallowly embedded: pure functions become Lean functions,
channel loops become functions over explicit event lists, fallible code
returns `Option`, and a `none` at the outermost level of a planner function
marks a nil-pointer dereference (a Go panic).  Parts of the repository that
the excerpt only calls (the `ast` expression visitors, `plan.ScanRange`'s
`Overlap`, the `catalog` interfaces, the goyacc parser) are either taken as
explicit function parameters or modelled from the specification; every
modelled definition is marked `Modelled from the spec:` in its doc comment.
-/

namespace Tuqtng

/-- A scalar value as ordered by the index collation; only the shape needed by
scan-range bounds is modelled: the `missing` and `null` sentinels below all
numbers, and numbers ordered as integers. -/
inductive SValue where
  | missing : SValue
  | null : SValue
  | num : Int → SValue
deriving DecidableEq, Repr

/-- Aggregate-function kinds: `min` is the distinguished kind the planner's
projection optimization tests for (`*ast.FunctionCallMin`); every other
aggregate is identified only by name. -/
inductive AggKind where
  | min : AggKind
  | other : String → AggKind
deriving DecidableEq, Repr

/-- Comparison/arithmetic operator tags for binary expressions; only the
identity of the operator matters to the planner code under verification. -/
inductive BinOp where
  | eq | lt | gt | le | ge | neq | plus | minus : BinOp
deriving DecidableEq, Repr

/-- The expression tree of the `ast` package, restricted to the shape the
planner excerpt inspects: n-ary `and`/`or` (Go's `AndOperator.Operands` /
`OrOperator.Operands` slices), `not`, `IS NOT NULL`, literals, unqualified
and bucket-qualified property references, binary operators, and aggregate
function calls carrying an operand list whose entries pair a wildcard flag
with an expression (Go's `FunctionArgExpression`). -/
inductive Expr where
  | litBool : Bool → Expr
  | litNum : Int → Expr
  | prop : String → Expr
  | qprop : String → String → Expr
  | and : List Expr → Expr
  | or : List Expr → Expr
  | not : Expr → Expr
  | isNotNull : Expr → Expr
  | binop : BinOp → Expr → Expr → Expr
  | aggCall : AggKind → List (Bool × Expr) → Expr

mutual

/-- Structural equality on expressions (the `ast` package compares
expressions structurally; Lean cannot derive decidable equality for this
nested inductive, so it is written out). -/
def Expr.beq : Expr → Expr → Bool
  | .litBool a, .litBool b => a == b
  | .litNum a, .litNum b => a == b
  | .prop a, .prop b => a == b
  | .qprop a1 a2, .qprop b1 b2 => a1 == b1 && a2 == b2
  | .and l1, .and l2 => Expr.beqList l1 l2
  | .or l1, .or l2 => Expr.beqList l1 l2
  | .not a, .not b => Expr.beq a b
  | .isNotNull a, .isNotNull b => Expr.beq a b
  | .binop o1 a1 b1, .binop o2 a2 b2 =>
      o1 == o2 && Expr.beq a1 a2 && Expr.beq b1 b2
  | .aggCall k1 o1, .aggCall k2 o2 => k1 == k2 && Expr.beqOps o1 o2
  | _, _ => false

/-- Pointwise structural equality on expression lists. -/
def Expr.beqList : List Expr → List Expr → Bool
  | [], [] => true
  | a :: as_, b :: bs => Expr.beq a b && Expr.beqList as_ bs
  | _, _ => false

/-- Pointwise structural equality on aggregate operand lists. -/
def Expr.beqOps : List (Bool × Expr) → List (Bool × Expr) → Bool
  | [], [] => true
  | (s1, a) :: as_, (s2, b) :: bs => s1 == s2 && Expr.beq a b && Expr.beqOps as_ bs
  | _, _ => false

end

instance : BEq Expr := ⟨Expr.beq⟩

/-- One entry of a result-expression list (`ast.ResultExpression`): a
wildcard flag (`Star`), an optional expression (`Expr`, nil-able in Go) and
an alias (`As`, empty string when absent). -/
structure ResultExpression where
  Star : Bool
  Expr : Option Expr
  As : String

/-- One ORDER BY term (`ast.SortExpression`): the sort expression and an
ascending flag. -/
structure SortExpression where
  Expr : Expr
  Ascending : Bool

/-- One scan-range constraint over an index key (`plan.ScanRange`): optional
low/high bounds (`none` = unbounded), inclusivity flags, and an optional
per-range row limit where `0` means unlimited. Modelled from the spec: the
`plan` package is not part of the source excerpt; §3 of the specification
describes this exact field set. -/
structure ScanRange where
  Low : Option SValue
  High : Option SValue
  LowIncl : Bool
  HighIncl : Bool
  Limit : Nat
deriving DecidableEq, Repr

/-- A secondary (range) index as the analysis functions see it: a name and an
ordered index key, a list of key-component expressions
(`catalog.RangeIndex`). -/
structure RangeIndex where
  Name : String
  Key : List Expr

end Tuqtng

namespace Tuqtng

/-! ## The Offset pipeline operator (`xpipeline/offset.go`) -/

/-- A message on an operator's support channel: either a query `Error`
(identified here by a numeric tag) or any other support object. -/
inductive SupportMsg where
  | error : Nat → SupportMsg
  | other : Nat → SupportMsg
deriving DecidableEq, Repr

/-- One event the `Offset` operator's `select` loop can receive from its
source: an item delivered on the source's item channel, or a support message
delivered on the source's support channel.  A run processes one explicit
interleaving of the two channels as a single event list; the list ending
models both source channels closing. Items are opaque and modelled as
naturals. -/
inductive SourceEvent where
  | item : Nat → SourceEvent
  | support : SupportMsg → SourceEvent
deriving DecidableEq, Repr

/-- The mutable state of an `Offset` operator: the configured skip count
(`Offset`, a Go `int`) and the running counter (`count`). -/
structure OffsetOp where
  Offset : Int
  count : Int
deriving DecidableEq, Repr

/-- Go `Offset.processItem`: increment the counter; if it is still ≤ the
configured offset, drop the item, otherwise emit it. -/
def OffsetOp.processItem (st : OffsetOp) (item : Nat) : OffsetOp × Option Nat :=
  let st := { st with count := st.count + 1 }
  if st.count ≤ st.Offset then (st, none) else (st, some item)

/-- The receive loop of `Offset.Run` over one interleaving of source events.
Returns the items sent on the operator's own item channel and the messages
sent on its own support channel, in order.  An `Error` support message is
forwarded and the loop returns immediately; any other support message is
forwarded and the loop continues; items go through `processItem`. -/
def OffsetOp.runLoop (st : OffsetOp) : List SourceEvent → List Nat × List SupportMsg
  | [] => ([], [])
  | SourceEvent.item x :: rest =>
      let (st', out) := st.processItem x
      let (is, ss) := st'.runLoop rest
      (match out with
       | some y => y :: is
       | none => is, ss)
  | SourceEvent.support (SupportMsg.error e) :: _ => ([], [SupportMsg.error e])
  | SourceEvent.support (SupportMsg.other o) :: rest =>
      let (is, ss) := st.runLoop rest
      (is, SupportMsg.other o :: ss)

/-- Go `Offset.Run`: reset the running counter to 0, then drive the receive
loop. -/
def OffsetOp.Run (st : OffsetOp) (events : List SourceEvent) :
    List Nat × List SupportMsg :=
  OffsetOp.runLoop { st with count := 0 } events

end Tuqtng

namespace Tuqtng

/-! ## Index analysis (`planner/simple/index.go`) -/

/-- The operations `index.go` and the planner call on `ast` and `plan` code
that is outside the source excerpt.  Each analysis function is parametric in
this record, and the theorems below hold for every choice of it; concrete
spec-modelled instances are provided further down for witnesses.
Field by field:
`ov` is `plan.ScanRange.Overlap` (combined range, or `none` for no overlap);
`fnot` is the formal-notation converter bound to a bucket (`none` = error);
`nnfF` is `ast.ExpressionNNF` and `cnfF` is `ast.ExpressionCNF` (total per
the spec);
`sarg key e` is `ast`-side sargability analysis of `e` against the key
expression `key` (`some ranges` when `IsSargable`, `none` otherwise);
`depCheck deps e` is `ExpressionFunctionalDependencyCheckerFull` built from
the determining set `deps`, `true` when `Visit e` returns no error. -/
structure AstOps where
  ov : ScanRange → ScanRange → Option ScanRange
  fnot : String → Expr → Option Expr
  nnfF : Expr → Expr
  cnfF : Expr → Expr
  sarg : Expr → Expr → Option (List ScanRange)
  depCheck : List Expr → Expr → Bool

/-- Go `IndexKeyInFormalNotation`: apply the formal-notation converter, bound to
the given bucket, to every key-component expression; fail if any conversion
fails. -/
def IndexKeyInFormalNotation (fnot : String → Expr → Option Expr)
    (key : List Expr) (bucket : String) : Option (List Expr) :=
  key.mapM (fnot bucket)

/-- One iteration of the Go `MergeRanges` loop, threading the `merged` flag
and the output slice `rv`: once merged, originals are passed through; before
that, the first original that overlaps the new range is replaced by the
combined range. -/
def mergeRangesStep (ov : ScanRange → ScanRange → Option ScanRange)
    (newr : ScanRange) (st : Bool × List ScanRange) (orig : ScanRange) :
    Bool × List ScanRange :=
  if st.1 then (true, st.2 ++ [orig])
  else
    match ov orig newr with
    | some mergedRange => (true, st.2 ++ [mergedRange])
    | none => (false, st.2 ++ [orig])

/-- Go `MergeRanges`: walk the existing ranges in order keeping a `merged`
flag; the first range that overlaps the new one is replaced by the combined
range, every other range is passed through unchanged, and the new range is
appended at the end when nothing overlapped it. -/
def MergeRanges (ov : ScanRange → ScanRange → Option ScanRange)
    (origr : List ScanRange) (newr : ScanRange) : List ScanRange :=
  let acc := origr.foldl (mergeRangesStep ov newr) (false, [])
  if acc.1 then acc.2 else acc.2 ++ [newr]

/-- Go `CanIUseThisIndexForThisWhereClause`: convert the index key to formal
notation, put the WHERE clause into NNF then CNF, and dispatch: a top-level
`AndOperator` is satisfied conjunct by conjunct (accumulating a `found` flag
and merging every sargable conjunct's ranges); anything else must be
sargable as a whole.  `none` models the Go error return (formal-notation
failure; an empty index key, on which the Go code would panic indexing
`indexKeyFormal[0]`, is folded into the same `none`).  The conjunct loop is
factored out as `sargStep`, one iteration: a sargable conjunct raises the
`found` flag and folds each of its ranges into the accumulated ranges via
`MergeRanges`; a non-sargable conjunct leaves the accumulator unchanged.
The type switch on the CNF result is factored out as
`canIUseCNFDispatch`. -/
def sargStep (A : AstOps) (k0 : Expr) (acc : Bool × List ScanRange)
    (oper : Expr) : Bool × List ScanRange :=
  match A.sarg k0 oper with
  | some rs => (true, rs.foldl (MergeRanges A.ov) acc.2)
  | none => acc

def canIUseCNFDispatch (A : AstOps) (k0 : Expr) (whereCNF : Expr) :
    Bool × List ScanRange :=
  match whereCNF with
  | Expr.and operands =>
      let acc := operands.foldl (sargStep A k0) (false, [])
      if acc.1 then (true, acc.2) else (false, [])
  | e =>
      match A.sarg k0 e with
      | some rs => (true, rs)
      | none => (false, [])

def CanIUseThisIndexForThisWhereClause (A : AstOps) (index : RangeIndex)
    (whereE : Expr) (bucket : String) : Option (Bool × List ScanRange) :=
  match IndexKeyInFormalNotation A.fnot index.Key bucket with
  | none => none
  | some [] => none
  | some (k0 :: _) =>
    let whereNNF := A.nnfF whereE
    let whereCNF := A.cnfF whereNNF
    some (canIUseCNFDispatch A k0 whereCNF)

/-- The per-entry loop of
`CanIUseThisIndexForThisProjectionNoWhereNoGroupClause`, threading the
`allAggregateFunctionsMin` flag.  `none` models the early `return false`
paths: a wildcard entry, a non-aggregate (or nil) expression, an empty
operand list, a wildcard first operand, or a first operand failing the
functional-dependency check.  Only the first operand is inspected. -/
def projectionLoop (check : Expr → Bool) :
    List ResultExpression → Bool → Option Bool
  | [], allMin => some allMin
  | re :: rest, allMin =>
    if re.Star then none
    else
      match re.Expr with
      | some (Expr.aggCall kind operands) =>
          let allMin := allMin && (kind == AggKind.min)
          match operands with
          | [] => none
          | (st, e0) :: _ =>
            if st then none
            else if check e0 then projectionLoop check rest allMin else none
      | _ => none

/-- Go `CanIUseThisIndexForThisProjectionNoWhereNoGroupClause`: convert the
index key to formal notation, run the projection loop against a
functional-dependency checker built from the first key component only, and
on success report the sargable ranges of a synthesized
`IS NOT NULL first-key` predicate, with each range's row limit set to 1 when
every aggregate was MIN.  `none` models the Go error return (and folds in
the empty-key panic as in the WHERE-clause variant). -/
def CanIUseThisIndexForThisProjectionNoWhereNoGroupClause (A : AstOps)
    (index : RangeIndex) (resultExprList : List ResultExpression)
    (bucket : String) : Option (Bool × List ScanRange) :=
  match IndexKeyInFormalNotation A.fnot index.Key bucket with
  | none => none
  | some [] => none
  | some (k0 :: _) =>
    match projectionLoop (A.depCheck [k0]) resultExprList true with
    | none => some (false, [])
    | some allMin =>
      match A.sarg k0 (Expr.isNotNull k0) with
      | some ranges =>
          some (true,
            if allMin then ranges.map (fun r => { r with Limit := 1 }) else ranges)
      | none => some (false, [])

end Tuqtng

namespace Tuqtng

/-! ## Statements, plan elements, catalog, and the simple planner
(`plan.go` of `planner/simple`, given as `src/unnamed/part_000`) -/

/-- The `ast.From` chain: pool name (empty = absent), bucket name, unnest
projection, binding alias, and an optional nested `Over` level.  Go's
`*From` pointer chain makes this a recursive inductive rather than a
structure. -/
inductive From where
  | mk (Pool : String) (Bucket : String) (Projection : Option Expr)
       (As : String) (Over : Option From)

/-- Pool name of a `From` level. -/
def From.Pool : From → String
  | .mk p _ _ _ _ => p

/-- Bucket name of a `From` level. -/
def From.Bucket : From → String
  | .mk _ b _ _ _ => b

/-- Unnest projection of a `From` level. -/
def From.Projection : From → Option Expr
  | .mk _ _ pr _ _ => pr

/-- Binding alias of a `From` level. -/
def From.As : From → String
  | .mk _ _ _ a _ => a

/-- Nested `Over` level of a `From` chain. -/
def From.Over : From → Option From
  | .mk _ _ _ _ o => o

/-- Go `ast.SelectStatement` with the fields the planner excerpt reads.  `Limit`
uses the Go convention: `-1` is the "no limit" sentinel, and `Offset 0`
means "no skip".  Nil-able Go fields become `Option`. -/
structure SelectStatement where
  Select : List ResultExpression
  From : Option From
  Where : Option Expr
  GroupBy : Option (List Expr)
  Having : Option Expr
  OrderBy : Option (List SortExpression)
  Limit : Int
  Offset : Int
  Distinct : Bool
  ExplainOnly : Bool

/-- Accessor `GetFrom`. -/
def SelectStatement.GetFrom (s : SelectStatement) : Option Tuqtng.From := s.From

/-- Accessor `GetWhere`. -/
def SelectStatement.GetWhere (s : SelectStatement) : Option Expr := s.Where

/-- Accessor `GetGroupBy`. -/
def SelectStatement.GetGroupBy (s : SelectStatement) : Option (List Expr) :=
  s.GroupBy

/-- Accessor `GetHaving`. -/
def SelectStatement.GetHaving (s : SelectStatement) : Option Expr := s.Having

/-- Accessor `GetOrderBy`. -/
def SelectStatement.GetOrderBy (s : SelectStatement) :
    Option (List SortExpression) := s.OrderBy

/-- Accessor `GetLimit`. -/
def SelectStatement.GetLimit (s : SelectStatement) : Int := s.Limit

/-- Accessor `GetOffset`. -/
def SelectStatement.GetOffset (s : SelectStatement) : Int := s.Offset

/-- Accessor `IsDistinct`. -/
def SelectStatement.IsDistinct (s : SelectStatement) : Bool := s.Distinct

/-- Accessor `GetResultExpressionList`. -/
def SelectStatement.GetResultExpressionList (s : SelectStatement) :
    List ResultExpression := s.Select

/-- Modelled from the spec: `GetAggregateReferences` lives in the `ast`
package, outside the excerpt; the planner only forwards its value into the
Group plan element and no claim inspects it.  Modelled as the aggregate
function calls appearing at the top level of result-list entries and of the
HAVING clause. -/
def SelectStatement.GetAggregateReferences (s : SelectStatement) : List Expr :=
  (s.Select.filterMap fun re =>
    match re.Expr with
    | some (Expr.aggCall k ops) => some (Expr.aggCall k ops)
    | _ => none) ++
  (match s.Having with
   | some (Expr.aggCall k ops) => [Expr.aggCall k ops]
   | _ => [])

/-- Modelled from the spec: `GetExplicitProjectionAliases` lives in the `ast`
package, outside the excerpt; the planner only forwards its value into the
Order plan element ("Order(OrderBy, explicit aliases)") and no claim
inspects it.  Modelled as the aliases of non-wildcard result entries. -/
def SelectStatement.GetExplicitProjectionAliases (s : SelectStatement) :
    List String :=
  s.Select.filterMap fun re =>
    if !re.Star && re.As != "" then some re.As else none

/-- Go `ast.CreateIndexStatement`: pool (empty = use the default), bucket, index
name, method, key expressions, and the explain flag. -/
structure CreateIndexStatement where
  Pool : String
  Bucket : String
  Name : String
  Method : String
  On : List Expr
  ExplainOnly : Bool

/-- Go `ast.DropIndexStatement`: pool (empty = use the default), bucket, index
name, and the explain flag. -/
structure DropIndexStatement where
  Pool : String
  Bucket : String
  Name : String
  ExplainOnly : Bool

/-- The `plan.PlanElement` vocabulary built by the planner excerpt.  `Scan`'s
ranges distinguish Go's nil slice (`none`, a primary-index full scan) from a
restricted range list. -/
inductive PlanElement where
  | Scan (pool bucket index : String) (ranges : Option (List ScanRange))
  | Fetch (source : PlanElement) (pool bucket : String)
          (projection : Option Expr) (as_ : String)
  | DocumentJoin (source : PlanElement) (projection : Option Expr) (as_ : String)
  | Filter (source : PlanElement) (expr : Expr)
  | Group (source : PlanElement) (groupBy : List Expr) (aggRefs : List Expr)
  | Projector (source : PlanElement) (result : List ResultExpression)
              (includeMeta : Bool)
  | EliminateDuplicates (source : PlanElement)
  | Order (source : PlanElement) (orderBy : List SortExpression)
          (aliases : List String)
  | Offset (source : PlanElement) (n : Int)
  | Limit (source : PlanElement) (n : Int)
  | Explain (source : PlanElement)
  | CreateIndex (pool bucket name method : String) (On : List Expr)
  | DropIndex (pool bucket name : String)

/-- Go `plan.Plan`: a wrapper around one root plan element. -/
structure Plan where
  Root : PlanElement

/-- The `query` errors the planner excerpt emits: the two distinguished
not-found constructors and the generic constructor, identified by its
formatted message. -/
inductive QError where
  | poolDoesNotExist (name : String)
  | bucketDoesNotExist (name : String)
  | generic (msg : String)

/-- A catalog index as the planner's type switch sees it: a
`catalog.PrimaryIndex`, a `catalog.RangeIndex` (with its key), or any other,
unsupported kind. -/
inductive CatalogIndex where
  | primary (name : String)
  | range (name : String) (key : List Expr)
  | unsupported (name : String)

/-- Go `catalog.Bucket`: a name and the result of `Indexes()` (`none` = the
enumeration itself errors). -/
structure Bucket where
  Name : String
  Indexes : Option (List CatalogIndex)

/-- Go `catalog.Pool`: a name and `BucketByName` (`none` = not found). -/
structure Pool where
  Name : String
  BucketByName : String → Option Bucket

/-- Go `catalog.Site`: `PoolByName` (`none` = not found). -/
structure Site where
  PoolByName : String → Option Pool

/-- Go `SimplePlanner`: a catalog site and the configured default pool name. -/
structure SimplePlanner where
  site : Site
  defaultPool : String

/-- Modelled from the spec: the reserved synthetic pool name
(`system.POOL_NAME`, from the `catalog/system` package outside the excerpt)
substituted when a Select has no FROM clause. -/
def POOL_NAME : String := ":system"

/-- Modelled from the spec: the reserved synthetic bucket name
(`system.BUCKET_NAME_DUAL`) naming the built-in single-row source. -/
def BUCKET_NAME_DUAL : String := "dual"

end Tuqtng

namespace Tuqtng

/-- Go `DoesIndexCoverStatement`: false immediately when the From chain has a
nested Over level; false when the key cannot be put in formal notation;
otherwise build the determining set from all formally-notated key components
and check every projection entry (wildcards and nil expressions fail
outright), the WHERE clause, and — only inside the `GroupBy != nil` branch,
exactly as the source nests it — each GROUP BY term and the HAVING clause,
then each ORDER BY term.  The outer `none` models the nil-pointer panic the
Go code makes on `stmt.From.Over` when the statement has no From clause. -/
def DoesIndexCoverStatement (A : AstOps) (index : RangeIndex)
    (stmt : SelectStatement) : Option Bool :=
  match stmt.From with
  | none => none
  | some f =>
    match f.Over with
    | some _ => some false
    | none =>
      match IndexKeyInFormalNotation A.fnot index.Key f.As with
      | none => some false
      | some indexKeyFormal =>
        let check := A.depCheck indexKeyFormal
        if !(stmt.Select.all fun re =>
              !re.Star && (match re.Expr with
                           | some e => check e
                           | none => false)) then some false
        else if !(match stmt.Where with
                  | some w => check w
                  | none => true) then some false
        else if !(match stmt.GroupBy with
                  | some gl =>
                      gl.all check &&
                      (match stmt.Having with
                       | some h => check h
                       | none => true)
                  | none => true) then some false
        else if !(match stmt.OrderBy with
                  | some ol => ol.all (fun se => check se.Expr)
                  | none => true) then some false
        else some true

/-- The stage-appending loop of `buildSelectStatementPlans` (its second
`for`): starting from one plan head, conditionally wrap Filter(Where),
Group, Filter(Having), always a Projector with include-metadata `true`,
EliminateDuplicates when Distinct, Order, Offset when the offset is not 0,
Limit when the limit is ≥ 0, and an Explain wrapper when ExplainOnly. -/
def buildSelectStages (stmt : SelectStatement) (head : PlanElement) :
    PlanElement :=
  let lastStep := head
  let lastStep := match stmt.GetWhere with
    | some w => PlanElement.Filter lastStep w
    | none => lastStep
  let lastStep := match stmt.GetGroupBy with
    | some g => PlanElement.Group lastStep g stmt.GetAggregateReferences
    | none => lastStep
  let lastStep := match stmt.GetHaving with
    | some h => PlanElement.Filter lastStep h
    | none => lastStep
  let lastStep := PlanElement.Projector lastStep stmt.GetResultExpressionList true
  let lastStep := if stmt.IsDistinct then PlanElement.EliminateDuplicates lastStep
                  else lastStep
  let lastStep := match stmt.GetOrderBy with
    | some ob => PlanElement.Order lastStep ob stmt.GetExplicitProjectionAliases
    | none => lastStep
  let lastStep := if stmt.GetOffset ≠ 0 then PlanElement.Offset lastStep stmt.GetOffset
                  else lastStep
  let lastStep := if stmt.GetLimit ≥ 0 then PlanElement.Limit lastStep stmt.GetLimit
                  else lastStep
  if stmt.ExplainOnly then PlanElement.Explain lastStep else lastStep

/-- The document-join wrapping loop: one `DocumentJoin` per nested `Over`
level of the From chain, innermost first. -/
def overJoins : Option From → PlanElement → PlanElement
  | none, p => p
  | some (From.mk _ _ pr a o), p => overJoins o (PlanElement.DocumentJoin p pr a)

/-- One iteration of the planner's index loop: `some (some scan)` when the
index contributes an access path, `some none` when it is skipped
(`continue`), and `none` when the Go code panics — the range-index branch
reads `stmt.From.Bucket` from the statement's original From field, not from
the locally substituted synthetic one, and dereferences nil when the
statement has no FROM clause. -/
def buildPlanHead (A : AstOps) (pool : Pool) (bucket : Bucket)
    (stmt : SelectStatement) : CatalogIndex → Option (Option PlanElement)
  | CatalogIndex.primary name =>
      some (some (PlanElement.Scan pool.Name bucket.Name name none))
  | CatalogIndex.range name key =>
      match stmt.Where with
      | some w =>
          match stmt.From with
          | none => none
          | some sf =>
            match CanIUseThisIndexForThisWhereClause A ⟨name, key⟩ w sf.Bucket with
            | none => some none
            | some (possible, ranges) =>
                if possible then
                  some (some (PlanElement.Scan pool.Name bucket.Name name (some ranges)))
                else some none
      | none => some none
  | CatalogIndex.unsupported _ => some none

/-- The planner's index loop: each contributing index's Scan is wrapped in a
Fetch (using the resolved From's projection and alias) and then in one
DocumentJoin per `Over` level; skipped indexes contribute nothing; a panic
(`none` from `buildPlanHead`) aborts the whole run. -/
def buildPlanHeads (A : AstOps) (pool : Pool) (bucket : Bucket) (from_ : From)
    (stmt : SelectStatement) : List CatalogIndex → Option (List PlanElement)
  | [] => some []
  | idx :: rest =>
    match buildPlanHead A pool bucket stmt idx with
    | none => none
    | some none => buildPlanHeads A pool bucket from_ stmt rest
    | some (some scanStep) =>
        let headStep := overJoins from_.Over
          (PlanElement.Fetch scanStep pool.Name bucket.Name from_.Projection from_.As)
        match buildPlanHeads A pool bucket from_ stmt rest with
        | none => none
        | some heads => some (headStep :: heads)

/-- Go `buildSelectStatementPlans`: substitute the synthetic system pool/bucket
pair when FROM is absent, resolve pool / bucket / index enumeration (each
failure emits its error and stops), build the plan heads, emit the "No
usable indexes" error when there are none, and otherwise emit one completed
plan per head.  The result pairs the plans sent on the plan channel with the
errors sent on the error channel, in order; `none` models a panic. -/
def buildSelectStatementPlans (A : AstOps) (p : SimplePlanner)
    (stmt : SelectStatement) : Option (List Plan × List QError) :=
  let from_ := match stmt.GetFrom with
    | none => From.mk POOL_NAME BUCKET_NAME_DUAL none "" none
    | some f => f
  let poolName := if from_.Pool = "" then p.defaultPool else from_.Pool
  match p.site.PoolByName poolName with
  | none => some ([], [QError.poolDoesNotExist poolName])
  | some pool =>
    match pool.BucketByName from_.Bucket with
    | none => some ([], [QError.bucketDoesNotExist from_.Bucket])
    | some bucket =>
      match bucket.Indexes with
      | none =>
          some ([], [QError.generic ("No indexes found for bucket " ++ from_.Bucket)])
      | some indexes =>
        match buildPlanHeads A pool bucket from_ stmt indexes with
        | none => none
        | some planHeads =>
          if planHeads.isEmpty then
            some ([], [QError.generic ("No usable indexes found for bucket " ++ from_.Bucket)])
          else
            some (planHeads.map (fun h => Plan.mk (buildSelectStages stmt h)), [])

/-- Go `buildCreateIndexStatementPlans`: resolve the pool (explicit name, or the
default when empty) and the bucket; note that the pool-not-found error is
built from `this.defaultPool`, not from the pool name that was looked up —
exactly as in the source.  On success emit one CreateIndex plan, optionally
Explain-wrapped. -/
def buildCreateIndexStatementPlans (p : SimplePlanner)
    (stmt : CreateIndexStatement) : List Plan × List QError :=
  let poolName := if stmt.Pool = "" then p.defaultPool else stmt.Pool
  match p.site.PoolByName poolName with
  | none => ([], [QError.poolDoesNotExist p.defaultPool])
  | some pool =>
    match pool.BucketByName stmt.Bucket with
    | none => ([], [QError.bucketDoesNotExist stmt.Bucket])
    | some bucket =>
      let lastStep := PlanElement.CreateIndex pool.Name bucket.Name stmt.Name
        stmt.Method stmt.On
      let lastStep := if stmt.ExplainOnly then PlanElement.Explain lastStep
                      else lastStep
      ([Plan.mk lastStep], [])

/-- Go `buildDropIndexStatementPlans`: same resolution as the CreateIndex
builder, including the pool-not-found error built from `this.defaultPool`;
on success emit one DropIndex plan, optionally Explain-wrapped. -/
def buildDropIndexStatementPlans (p : SimplePlanner)
    (stmt : DropIndexStatement) : List Plan × List QError :=
  let poolName := if stmt.Pool = "" then p.defaultPool else stmt.Pool
  match p.site.PoolByName poolName with
  | none => ([], [QError.poolDoesNotExist p.defaultPool])
  | some pool =>
    match pool.BucketByName stmt.Bucket with
    | none => ([], [QError.bucketDoesNotExist stmt.Bucket])
    | some bucket =>
      let lastStep := PlanElement.DropIndex pool.Name bucket.Name stmt.Name
      let lastStep := if stmt.ExplainOnly then PlanElement.Explain lastStep
                      else lastStep
      ([Plan.mk lastStep], [])

end Tuqtng

namespace Tuqtng

/-! ## Spec-modelled instances of the external operations.  These stand in
for repository code outside the excerpt (`ast` visitors, `plan.ScanRange`)
and are used only to instantiate the parametric theorems at concrete
inputs. -/

/-- Modelled from the spec: the index collation order on scalar values, with
the `missing` and `null` sentinels below every number. -/
def SValue.le : SValue → SValue → Bool
  | SValue.missing, _ => true
  | SValue.null, SValue.missing => false
  | SValue.null, _ => true
  | SValue.num _, SValue.missing => false
  | SValue.num _, SValue.null => false
  | SValue.num a, SValue.num b => a ≤ b

/-- A low bound is at or below a high bound (`none` is unbounded on its
side). -/
def lowBeforeHigh : Option SValue → Option SValue → Bool
  | none, _ => true
  | _, none => true
  | some a, some b => a.le b

/-- The lower of two low bounds, with its inclusivity flag (`none` =
unbounded below). -/
def lowMin : Option SValue × Bool → Option SValue × Bool → Option SValue × Bool
  | (none, _), _ => (none, false)
  | _, (none, _) => (none, false)
  | (some x, ix), (some y, iy) =>
      if x = y then (some x, ix || iy)
      else if x.le y then (some x, ix) else (some y, iy)

/-- The higher of two high bounds, with its inclusivity flag (`none` =
unbounded above). -/
def highMax : Option SValue × Bool → Option SValue × Bool → Option SValue × Bool
  | (none, _), _ => (none, false)
  | _, (none, _) => (none, false)
  | (some x, ix), (some y, iy) =>
      if x = y then (some x, ix || iy)
      else if x.le y then (some y, iy) else (some x, ix)

/-- Modelled from the spec: `plan.ScanRange.Overlap` (§4.6) — a combined
range spanning both inputs when their intervals intersect, or `none`
otherwise.  The spec does not pin down the row limit of a combined range; no
claim below depends on it and the model leaves it unlimited. -/
def ScanRange.Overlap (r1 r2 : ScanRange) : Option ScanRange :=
  if lowBeforeHigh r2.Low r1.High && lowBeforeHigh r1.Low r2.High then
    let lo := lowMin (r1.Low, r1.LowIncl) (r2.Low, r2.LowIncl)
    let hi := highMax (r1.High, r1.HighIncl) (r2.High, r2.HighIncl)
    some { Low := lo.1, High := hi.1, LowIncl := lo.2, HighIncl := hi.2, Limit := 0 }
  else none

/-- Modelled from the spec: the single open "is defined" range over a key —
low bound at the `null` sentinel exclusive (so null and missing are
excluded), unbounded above, no row limit (§4.2, §8.6). -/
def isDefinedRange : ScanRange :=
  { Low := some SValue.null, High := none, LowIncl := false, HighIncl := false,
    Limit := 0 }

/-- Modelled from the spec: the sargable analyzer bound to one target key
expression (§4.2): an `IS NOT NULL` predicate on the key yields the single
"is defined" range; an equality of the key with a numeric literal yields the
single-point closed range; ordered comparisons yield the corresponding
half-bounded range; everything else is not sargable in this model. -/
def sargModel (key : Expr) : Expr → Option (List ScanRange)
  | Expr.isNotNull e => if e == key then some [isDefinedRange] else none
  | Expr.binop BinOp.eq a (Expr.litNum v) =>
      if a == key then
        some [{ Low := some (SValue.num v), High := some (SValue.num v),
                LowIncl := true, HighIncl := true, Limit := 0 }]
      else none
  | Expr.binop BinOp.lt a (Expr.litNum v) =>
      if a == key then
        some [{ Low := some SValue.null, High := some (SValue.num v),
                LowIncl := false, HighIncl := false, Limit := 0 }]
      else none
  | Expr.binop BinOp.gt a (Expr.litNum v) =>
      if a == key then
        some [{ Low := some (SValue.num v), High := none,
                LowIncl := false, HighIncl := false, Limit := 0 }]
      else none
  | _ => none

mutual

/-- Modelled from the spec: the formal-notation converter (§3, §4.5) bound
to a bucket that is both the sole known alias and the default alias:
unqualified property references become bucket-qualified, references already
qualified by the bucket are kept, references qualified by any other name
fail to resolve. -/
def fnotModel (bucket : String) : Expr → Option Expr
  | Expr.prop n => some (Expr.qprop bucket n)
  | Expr.qprop b n => if b = bucket then some (Expr.qprop b n) else none
  | Expr.litBool b => some (Expr.litBool b)
  | Expr.litNum v => some (Expr.litNum v)
  | Expr.and l => (fnotModelList bucket l).map Expr.and
  | Expr.or l => (fnotModelList bucket l).map Expr.or
  | Expr.not e => (fnotModel bucket e).map Expr.not
  | Expr.isNotNull e => (fnotModel bucket e).map Expr.isNotNull
  | Expr.binop o a b =>
      match fnotModel bucket a, fnotModel bucket b with
      | some a2, some b2 => some (Expr.binop o a2 b2)
      | _, _ => none
  | Expr.aggCall k ops => (fnotModelOps bucket ops).map (Expr.aggCall k)

/-- Formal-notation conversion of an expression list. -/
def fnotModelList (bucket : String) : List Expr → Option (List Expr)
  | [] => some []
  | e :: r =>
      match fnotModel bucket e, fnotModelList bucket r with
      | some e2, some r2 => some (e2 :: r2)
      | _, _ => none

/-- Formal-notation conversion of an aggregate operand list. -/
def fnotModelOps (bucket : String) :
    List (Bool × Expr) → Option (List (Bool × Expr))
  | [] => some []
  | (st, e) :: r =>
      match fnotModel bucket e, fnotModelOps bucket r with
      | some e2, some r2 => some ((st, e2) :: r2)
      | _, _ => none

end

mutual

/-- Modelled from the spec: the functional-dependency checker, full mode
(§3, §4.2): an expression is determined when it is among the determining
set, is a literal, or has all of its sub-expressions determined; a property
reference outside the set is undetermined.  Returns `true` when the Go
checker's `Visit` returns no error. -/
def depCheckModel (deps : List Expr) (e : Expr) : Bool :=
  deps.contains e ||
  match e with
  | Expr.litBool _ => true
  | Expr.litNum _ => true
  | Expr.prop _ => false
  | Expr.qprop _ _ => false
  | Expr.and l => depCheckModelList deps l
  | Expr.or l => depCheckModelList deps l
  | Expr.not a => depCheckModel deps a
  | Expr.isNotNull a => depCheckModel deps a
  | Expr.binop _ a b => depCheckModel deps a && depCheckModel deps b
  | Expr.aggCall _ ops => depCheckModelOps deps ops

/-- Dependency check over an expression list. -/
def depCheckModelList (deps : List Expr) : List Expr → Bool
  | [] => true
  | e :: r => depCheckModel deps e && depCheckModelList deps r

/-- Dependency check over an aggregate operand list. -/
def depCheckModelOps (deps : List Expr) : List (Bool × Expr) → Bool
  | [] => true
  | (_, e) :: r => depCheckModel deps e && depCheckModelOps deps r

end

mutual

/-- Modelled from the spec: the negation-normal-form converter (§3, §4.2):
pushes NOT inward via De Morgan and eliminates double negation, leaving
comparisons and predicates untouched; a total, structure-preserving
transform. -/
def nnfModel : Expr → Expr
  | Expr.not e => nnfNeg e
  | Expr.and l => Expr.and (nnfList l)
  | Expr.or l => Expr.or (nnfList l)
  | e => e

/-- NNF of a negated expression. -/
def nnfNeg : Expr → Expr
  | Expr.not e => nnfModel e
  | Expr.and l => Expr.or (nnfNegList l)
  | Expr.or l => Expr.and (nnfNegList l)
  | e => Expr.not e

/-- NNF of an expression list. -/
def nnfList : List Expr → List Expr
  | [] => []
  | e :: r => nnfModel e :: nnfList r

/-- NNF of a negated expression list. -/
def nnfNegList : List Expr → List Expr
  | [] => []
  | e :: r => nnfNeg e :: nnfNegList r

end

/-- The conjuncts of an expression: the operand list of a top-level AND, or
the expression itself. -/
def conjunctsOf : Expr → List Expr
  | Expr.and l => l
  | e => [e]

/-- The disjuncts of an expression: the operand list of a top-level OR, or
the expression itself. -/
def disjunctsOf : Expr → List Expr
  | Expr.or l => l
  | e => [e]

/-- Rebuild a conjunction, collapsing the singleton case. -/
def mkAnd : List Expr → Expr
  | [e] => e
  | l => Expr.and l

/-- Rebuild a disjunction, collapsing the singleton case. -/
def mkOr : List Expr → Expr
  | [e] => e
  | l => Expr.or l

/-- All ways of picking one element from each of the given lists (the
cartesian product used to distribute OR over AND). -/
def pickOne : List (List Expr) → List (List Expr)
  | [] => [[]]
  | l :: rest => l.flatMap fun x => (pickOne rest).map (x :: ·)

mutual

/-- Modelled from the spec: the conjunctive-normal-form converter (§3,
§4.2), applied to an NNF input: conjunctions of converted operands are
flattened; a disjunction distributes OR over AND by picking one conjunct
from each converted operand for every resulting disjunct; the result is an
AND of sub-expressions, or a non-AND expression when no conjunction
results. -/
def cnfModel : Expr → Expr
  | Expr.and l => mkAnd ((cnfList l).flatMap conjunctsOf)
  | Expr.or l =>
      let cs := (cnfList l).map conjunctsOf
      mkAnd ((pickOne cs).map fun pick => mkOr (pick.flatMap disjunctsOf))
  | e => e

/-- CNF of an expression list. -/
def cnfList : List Expr → List Expr
  | [] => []
  | e :: r => cnfModel e :: cnfList r

end

/-- The spec-modelled instantiation of `AstOps` used by the concrete
witnesses and counterexamples below. -/
def modelOps : AstOps :=
  { ov := ScanRange.Overlap
    fnot := fnotModel
    nnfF := nnfModel
    cnfF := cnfModel
    sarg := sargModel
    depCheck := depCheckModel }

end Tuqtng

namespace Tuqtng

/-! ## Theorems about the Offset operator (claim C2) -/

/-- Processing a run of items with the counter at `cnt`: the first
`(K - cnt).toNat` of them are dropped, the rest are forwarded unchanged and
in order, and the loop continues on the remaining events with the counter
advanced by the number of items seen. -/
theorem runLoop_items_append (K : Int) (xs : List Nat) :
    ∀ (cnt : Int) (evs : List SourceEvent),
    OffsetOp.runLoop ⟨K, cnt⟩ (xs.map SourceEvent.item ++ evs) =
      (xs.drop (K - cnt).toNat ++
         (OffsetOp.runLoop ⟨K, cnt + xs.length⟩ evs).1,
       (OffsetOp.runLoop ⟨K, cnt + xs.length⟩ evs).2) := by
  induction xs with
  | nil => intro cnt evs; simp [OffsetOp.runLoop]
  | cons x xs ih =>
      intro cnt evs
      simp only [List.map_cons, List.cons_append, OffsetOp.runLoop,
        OffsetOp.processItem, List.append_eq]
      have hc : cnt + 1 + (xs.length : Int) = cnt + ((x :: xs).length : Int) := by
        simp only [List.length_cons]
        push_cast
        omega
      by_cases h : cnt + 1 ≤ K
      · have hd : (K - cnt).toNat = (K - (cnt + 1)).toNat + 1 := by omega
        rw [if_pos h, ih (cnt + 1) evs]
        simp [hc, hd, List.drop_succ_cons]
      · have hd : (K - cnt).toNat = 0 := by omega
        have hd2 : (K - (cnt + 1)).toNat = 0 := by omega
        rw [if_neg h, ih (cnt + 1) evs]
        simp [hc, hd, hd2]

/-- C2: the Offset operator, configured with skip count K with 0 ≤ K ≤ N and
fed N items, emits exactly the last N − K of them — max(0, N−K) items, in
original order, unchanged — with its counter reset to 0 at the start of the
run regardless of the incoming state; an Error support message received
after the items is forwarded on the operator's own support channel and
nothing further is emitted even when more events are available upstream; a
non-Error support message is forwarded unchanged and processing
continues. -/
theorem offset_operator_spec :
    (∀ (K c : Int) (xs : List Nat), 0 ≤ K → K ≤ (xs.length : Int) →
        OffsetOp.Run ⟨K, c⟩ (xs.map SourceEvent.item) = (xs.drop K.toNat, [])) ∧
    (∀ (K c : Int) (xs : List Nat) (e : Nat) (post : List SourceEvent), 0 ≤ K →
        OffsetOp.Run ⟨K, c⟩
            (xs.map SourceEvent.item ++
              SourceEvent.support (SupportMsg.error e) :: post) =
          (xs.drop K.toNat, [SupportMsg.error e])) ∧
    (∀ (K c : Int) (o : Nat) (evs : List SourceEvent),
        OffsetOp.Run ⟨K, c⟩ (SourceEvent.support (SupportMsg.other o) :: evs) =
          ((OffsetOp.Run ⟨K, c⟩ evs).1,
           SupportMsg.other o :: (OffsetOp.Run ⟨K, c⟩ evs).2)) := by
  refine ⟨?_, ?_, ?_⟩
  · intro K c xs _ _
    have h := runLoop_items_append K xs 0 []
    simp only [List.append_nil, OffsetOp.runLoop] at h
    simp [OffsetOp.Run, h]
  · intro K c xs e post _
    have h := runLoop_items_append K xs 0
      (SourceEvent.support (SupportMsg.error e) :: post)
    simp only [OffsetOp.runLoop] at h
    simp [OffsetOp.Run, h]
  · intro K c o evs
    simp [OffsetOp.Run, OffsetOp.runLoop]

/-- Witness for C2 at concrete inputs: skip count 2 over four items starting
from a dirty counter, an error after two items, and a pass-through support
message. -/
theorem offset_operator_spec_witness :
    OffsetOp.Run ⟨2, 7⟩ ([10, 11, 12, 13].map SourceEvent.item) = ([12, 13], []) ∧
    OffsetOp.Run ⟨1, 7⟩
        ([10, 11].map SourceEvent.item ++
          SourceEvent.support (SupportMsg.error 5) ::
            [SourceEvent.item 12]) = ([11], [SupportMsg.error 5]) ∧
    OffsetOp.Run ⟨0, 3⟩ (SourceEvent.support (SupportMsg.other 9) ::
        [SourceEvent.item 4]) = ([4], [SupportMsg.other 9]) :=
  ⟨offset_operator_spec.1 2 7 [10, 11, 12, 13] (by decide) (by decide),
   offset_operator_spec.2.1 1 7 [10, 11] 5 [SourceEvent.item 12] (by decide),
   by
     have h := offset_operator_spec.2.2 0 3 9 [SourceEvent.item 4]
     rw [h]
     rfl⟩

end Tuqtng

namespace Tuqtng

/-! ## Theorems about MergeRanges (claim C4) -/

/-- After a merge has happened, the remaining loop iterations pass every
original range through unchanged. -/
theorem foldl_mergeStep_true (ov : ScanRange → ScanRange → Option ScanRange)
    (n : ScanRange) :
    ∀ (l : List ScanRange) (acc : List ScanRange),
      l.foldl (mergeRangesStep ov n) (true, acc) = (true, acc ++ l) := by
  intro l
  induction l with
  | nil => intro acc; simp
  | cons r l ih =>
      intro acc
      simp [mergeRangesStep, ih]

/-- While nothing has overlapped, and no range of the list overlaps the new
range, the loop passes every original range through unchanged and the flag
stays down. -/
theorem foldl_mergeStep_none (ov : ScanRange → ScanRange → Option ScanRange)
    (n : ScanRange) :
    ∀ (l : List ScanRange) (acc : List ScanRange), (∀ r ∈ l, ov r n = none) →
      l.foldl (mergeRangesStep ov n) (false, acc) = (false, acc ++ l) := by
  intro l
  induction l with
  | nil => intro acc _; simp
  | cons r l ih =>
      intro acc h
      have hr : ov r n = none := h r (by simp)
      simp only [List.foldl_cons, mergeRangesStep, hr]
      simp only [if_neg (by simp : ¬(((false : Bool), acc) : Bool × List ScanRange).1 = true)]
      rw [ih (acc ++ [r]) (fun r2 hm => h r2 (by simp [hm]))]
      simp

/-- One loop iteration appends exactly one range to the output slice. -/
theorem mergeStep_len (ov : ScanRange → ScanRange → Option ScanRange)
    (n : ScanRange) (st : Bool × List ScanRange) (orig : ScanRange) :
    ((mergeRangesStep ov n st orig).2).length = st.2.length + 1 := by
  unfold mergeRangesStep
  split
  · simp
  · cases hov : ov orig n <;> simp [hov]

/-- Every loop iteration appends exactly one range to the output slice. -/
theorem foldl_mergeStep_len (ov : ScanRange → ScanRange → Option ScanRange)
    (n : ScanRange) :
    ∀ (l : List ScanRange) (st : Bool × List ScanRange),
      ((l.foldl (mergeRangesStep ov n) st).2).length = st.2.length + l.length := by
  intro l
  induction l with
  | nil => intro st; simp
  | cons r l ih =>
      intro st
      rw [List.foldl_cons, ih, mergeStep_len]
      simp only [List.length_cons]
      omega

/-- C4: `MergeRanges` scans the existing list in order; when no existing
range overlaps the new one, the result is the unchanged list with the new
range appended; when some range overlaps it, the first such range is
replaced by the combined range while every other range is kept unchanged
and in order (only one merge is attempted); consequently the result is
either as long as the input list or one element longer. -/
theorem mergeRanges_first_hit (ov : ScanRange → ScanRange → Option ScanRange) :
    (∀ (l : List ScanRange) (n : ScanRange), (∀ r ∈ l, ov r n = none) →
        MergeRanges ov l n = l ++ [n]) ∧
    (∀ (l1 : List ScanRange) (r : ScanRange) (l2 : List ScanRange)
        (n m : ScanRange),
        (∀ r2 ∈ l1, ov r2 n = none) → ov r n = some m →
        MergeRanges ov (l1 ++ r :: l2) n = l1 ++ m :: l2) ∧
    (∀ (l : List ScanRange) (n : ScanRange),
        (MergeRanges ov l n).length = l.length ∨
        (MergeRanges ov l n).length = l.length + 1) := by
  refine ⟨?_, ?_, ?_⟩
  · intro l n h
    unfold MergeRanges
    rw [foldl_mergeStep_none ov n l [] h]
    simp
  · intro l1 r l2 n m h1 hr
    unfold MergeRanges
    rw [List.foldl_append, foldl_mergeStep_none ov n l1 [] h1]
    simp only [List.foldl_cons, mergeRangesStep, hr]
    rw [if_neg (by simp : ¬(((false : Bool), ([] : List ScanRange) ++ l1) : Bool × List ScanRange).1 = true)]
    rw [foldl_mergeStep_true ov n l2 (([] ++ l1) ++ [m])]
    simp
  · intro l n
    unfold MergeRanges
    have hlen := foldl_mergeStep_len ov n l (false, [])
    rcases hacc : l.foldl (mergeRangesStep ov n) (false, []) with ⟨b, acc⟩
    rw [hacc] at hlen
    cases b
    · right
      simp at hlen ⊢
      simp [hlen]
    · left
      simp at hlen ⊢
      exact hlen

/-- Witness for C4 at concrete inputs: appending a disjoint range to the
empty list, and merging the "is defined" range with itself (their overlap is
again that range). -/
theorem mergeRanges_first_hit_witness :
    MergeRanges ScanRange.Overlap [] isDefinedRange = [isDefinedRange] ∧
    MergeRanges ScanRange.Overlap ([] ++ isDefinedRange :: []) isDefinedRange =
      [] ++ isDefinedRange :: [] :=
  ⟨(mergeRanges_first_hit ScanRange.Overlap).1 [] isDefinedRange (by simp),
   (mergeRanges_first_hit ScanRange.Overlap).2.1 [] isDefinedRange []
     isDefinedRange isDefinedRange (by simp) (by rfl)⟩

end Tuqtng

namespace Tuqtng

/-! ## Theorems about the WHERE-clause usability check (claim C3) -/

/-- The merge-union of a list of range lists: every range of every list
folded into the accumulated ranges via `MergeRanges`, in order.  This is the
spec's "union every successful conjunct's ranges via range-merging". -/
def mergeUnion (ov : ScanRange → ScanRange → Option ScanRange)
    (ls : List (List ScanRange)) : List ScanRange :=
  ls.foldl (fun a rl => rl.foldl (MergeRanges ov) a) []

/-- The conjunct loop computes, over any starting accumulator, the
disjunction of the starting flag with "some conjunct is sargable", and the
fold of every sargable conjunct's ranges (in order) into the starting
ranges. -/
theorem foldl_sargStep (A : AstOps) (k0 : Expr) :
    ∀ (conj : List Expr) (b : Bool) (acc : List ScanRange),
      conj.foldl (sargStep A k0) (b, acc) =
        (b || conj.any (fun o => (A.sarg k0 o).isSome),
         (conj.filterMap (A.sarg k0)).foldl
           (fun a rl => rl.foldl (MergeRanges A.ov) a) acc) := by
  intro conj
  induction conj with
  | nil => intro b acc; simp
  | cons o rest ih =>
      intro b acc
      rcases hs : A.sarg k0 o with _ | rs
      · rw [List.foldl_cons]
        show rest.foldl (sargStep A k0) (sargStep A k0 (b, acc) o) = _
        rw [show sargStep A k0 (b, acc) o = (b, acc) by simp [sargStep, hs]]
        rw [ih b acc]
        simp [hs]
      · rw [List.foldl_cons]
        show rest.foldl (sargStep A k0) (sargStep A k0 (b, acc) o) = _
        rw [show sargStep A k0 (b, acc) o =
              (true, rs.foldl (MergeRanges A.ov) acc) by simp [sargStep, hs]]
        rw [ih true (rs.foldl (MergeRanges A.ov) acc)]
        simp [hs]


/-- Reduction of the CNF type switch on a top-level AND: the `found` flag is
"at least one conjunct is sargable" and the ranges are the merge-union of
every sargable conjunct's ranges (empty when none was). -/
theorem canIUseCNFDispatch_and (A : AstOps) (k0 : Expr) (conj : List Expr) :
    canIUseCNFDispatch A k0 (Expr.and conj) =
      ((conj.any fun o => (A.sarg k0 o).isSome),
       mergeUnion A.ov (conj.filterMap (A.sarg k0))) := by
  simp only [canIUseCNFDispatch]
  rw [foldl_sargStep A k0 conj false []]
  rcases hany : conj.any (fun o => (A.sarg k0 o).isSome) with _ | _
  · have hfm : conj.filterMap (A.sarg k0) = [] := by
      rw [List.filterMap_eq_nil_iff]
      intro a ha
      have h2 := List.any_eq_false.mp hany a ha
      simpa using h2
    simp [hfm, mergeUnion]
  · simp [mergeUnion]

/-- Pair form of the two-way match on a sargability result. -/
theorem matchSarg (o : Option (List ScanRange)) :
    (match o with
     | some rs => ((true : Bool), rs)
     | none => ((false : Bool), ([] : List ScanRange))) =
      (o.isSome, o.getD []) := by
  cases o <;> rfl

/-- Reduction of the CNF type switch on anything that is not a top-level
AND: the whole expression must be sargable, and its own ranges are
returned. -/
theorem canIUseCNFDispatch_notAnd (A : AstOps) (k0 : Expr) (e : Expr)
    (h : ∀ l, e ≠ Expr.and l) :
    canIUseCNFDispatch A k0 e = ((A.sarg k0 e).isSome, (A.sarg k0 e).getD []) := by
  cases e
  case and l => exact absurd rfl (h l)
  all_goals exact matchSarg _

/-- C3: after converting the WHERE expression to NNF and then CNF, a
top-level AND is usable exactly when at least one conjunct is sargable
against the formally-notated first key component, and its ranges are the
merge-union of every sargable conjunct's ranges; any non-AND result is
usable exactly when the entire expression is sargable as a whole, with its
own ranges. -/
theorem canIUseWhere_cnf_dispatch (A : AstOps) (index : RangeIndex) (w : Expr)
    (bucket : String) (k0 : Expr) (krest : List Expr)
    (hk : IndexKeyInFormalNotation A.fnot index.Key bucket = some (k0 :: krest)) :
    (∀ conj, A.cnfF (A.nnfF w) = Expr.and conj →
        CanIUseThisIndexForThisWhereClause A index w bucket =
          some ((conj.any fun o => (A.sarg k0 o).isSome),
            mergeUnion A.ov (conj.filterMap (A.sarg k0)))) ∧
    ((∀ conj, A.cnfF (A.nnfF w) ≠ Expr.and conj) →
        CanIUseThisIndexForThisWhereClause A index w bucket =
          some ((A.sarg k0 (A.cnfF (A.nnfF w))).isSome,
            (A.sarg k0 (A.cnfF (A.nnfF w))).getD [])) := by
  constructor
  · intro conj hcnf
    unfold CanIUseThisIndexForThisWhereClause
    rw [hk]
    show some (canIUseCNFDispatch A k0 (A.cnfF (A.nnfF w))) = _
    rw [hcnf, canIUseCNFDispatch_and]
  · intro hne
    unfold CanIUseThisIndexForThisWhereClause
    rw [hk]
    show some (canIUseCNFDispatch A k0 (A.cnfF (A.nnfF w))) = _
    rw [canIUseCNFDispatch_notAnd A k0 _ hne]

/-- Witness for C3 at concrete inputs: under the spec-modelled operations,
the WHERE clause `a IS NOT NULL AND true` against an index on `a` of bucket
`b` normalizes to a top-level AND whose first conjunct is sargable, so the
index is usable with the single "is defined" range; and the non-AND clause
`true` alone is not sargable, so the index is unusable with no ranges. -/
theorem canIUseWhere_cnf_dispatch_witness :
    CanIUseThisIndexForThisWhereClause modelOps ⟨"ix", [Expr.prop "a"]⟩
        (Expr.and [Expr.isNotNull (Expr.qprop "b" "a"), Expr.litBool true]) "b" =
      some (true, [isDefinedRange]) ∧
    CanIUseThisIndexForThisWhereClause modelOps ⟨"ix", [Expr.prop "a"]⟩
        (Expr.litBool true) "b" = some (false, []) := by
  constructor
  · have h := (canIUseWhere_cnf_dispatch modelOps ⟨"ix", [Expr.prop "a"]⟩
      (Expr.and [Expr.isNotNull (Expr.qprop "b" "a"), Expr.litBool true]) "b"
      (Expr.qprop "b" "a") [] (by rfl)).1
      [Expr.isNotNull (Expr.qprop "b" "a"), Expr.litBool true] (by rfl)
    rw [h]
    rfl
  · have h := (canIUseWhere_cnf_dispatch modelOps ⟨"ix", [Expr.prop "a"]⟩
      (Expr.litBool true) "b" (Expr.qprop "b" "a") [] (by rfl)).2
      (by intro conj hc; exact Expr.noConfusion hc)
    rw [h]
    rfl

end Tuqtng

namespace Tuqtng

/-! ## Theorems about the Select stage order (claim C1) -/

/-- One pipeline stage above the access path, as the specification lists
them. -/
inductive Stage where
  | filterS (e : Expr)
  | groupS (g : List Expr) (a : List Expr)
  | projectorS (r : List ResultExpression) (m : Bool)
  | dedupS
  | orderS (ob : List SortExpression) (al : List String)
  | offsetS (n : Int)
  | limitS (n : Int)
  | explainS

/-- Wrap a plan element in one stage. -/
def applyStage (p : PlanElement) : Stage → PlanElement
  | Stage.filterS e => PlanElement.Filter p e
  | Stage.groupS g a => PlanElement.Group p g a
  | Stage.projectorS r m => PlanElement.Projector p r m
  | Stage.dedupS => PlanElement.EliminateDuplicates p
  | Stage.orderS ob al => PlanElement.Order p ob al
  | Stage.offsetS n => PlanElement.Offset p n
  | Stage.limitS n => PlanElement.Limit p n
  | Stage.explainS => PlanElement.Explain p

/-- Wrap a plan head in a list of stages, innermost first. -/
def wrapStages (head : PlanElement) (ss : List Stage) : PlanElement :=
  ss.foldl applyStage head

/-- The stages claim C1 specifies, in its fixed order: Filter(Where) if
present, Group if present, Filter(Having) if present, always a Projector
with include-metadata true, EliminateDuplicates if Distinct, Order if
present, Offset(n) if the offset is not 0, Limit(n) if the limit is ≥ 0,
and an Explain wrapper if ExplainOnly. -/
def specifiedStages (stmt : SelectStatement) : List Stage :=
  (match stmt.Where with
   | some w => [Stage.filterS w]
   | none => []) ++
  (match stmt.GroupBy with
   | some g => [Stage.groupS g stmt.GetAggregateReferences]
   | none => []) ++
  (match stmt.Having with
   | some h => [Stage.filterS h]
   | none => []) ++
  [Stage.projectorS stmt.Select true] ++
  (if stmt.Distinct then [Stage.dedupS] else []) ++
  (match stmt.OrderBy with
   | some ob => [Stage.orderS ob stmt.GetExplicitProjectionAliases]
   | none => []) ++
  (if stmt.Offset ≠ 0 then [Stage.offsetS stmt.Offset] else []) ++
  (if stmt.Limit ≥ 0 then [Stage.limitS stmt.Limit] else []) ++
  (if stmt.ExplainOnly then [Stage.explainS] else [])

set_option maxHeartbeats 2000000 in
/-- The stage-appending loop produces exactly the specified stages, in the
specified order, above the given plan head. -/
theorem buildSelectStages_eq_specified (stmt : SelectStatement)
    (head : PlanElement) :
    buildSelectStages stmt head = wrapStages head (specifiedStages stmt) := by
  rcases stmt with ⟨sel, f, w, g, hv, ob, lim, off, dis, ex⟩
  by_cases hoff : off ≠ 0 <;> by_cases hlim : lim ≥ 0 <;>
    cases w <;> cases g <;> cases hv <;> cases dis <;> cases ob <;> cases ex <;>
      simp [buildSelectStages, specifiedStages, wrapStages, applyStage,
        SelectStatement.GetWhere, SelectStatement.GetGroupBy,
        SelectStatement.GetHaving, SelectStatement.GetOrderBy,
        SelectStatement.GetOffset, SelectStatement.GetLimit,
        SelectStatement.IsDistinct, SelectStatement.GetResultExpressionList,
        hoff, hlim]

/-- C1: every plan head gets exactly the statement-specified stages, in the
fixed order Filter(Where), Group, Filter(Having), Projector(include
metadata), EliminateDuplicates, Order, Offset (when ≠ 0), Limit (when ≥ 0,
−1 being the unspecified sentinel), Explain (when ExplainOnly); and when
resolution succeeds and at least one plan head was built, the planner emits
exactly one completed plan per plan head and no errors. -/
theorem select_stage_order :
    (∀ (stmt : SelectStatement) (head : PlanElement),
        buildSelectStages stmt head = wrapStages head (specifiedStages stmt)) ∧
    (∀ (A : AstOps) (p : SimplePlanner) (stmt : SelectStatement) (from_ : From)
        (pool : Pool) (bucket : Bucket) (indexes : List CatalogIndex)
        (heads : List PlanElement),
        (match stmt.GetFrom with
         | none => From.mk POOL_NAME BUCKET_NAME_DUAL none "" none
         | some f => f) = from_ →
        p.site.PoolByName
            (if from_.Pool = "" then p.defaultPool else from_.Pool) = some pool →
        pool.BucketByName from_.Bucket = some bucket →
        bucket.Indexes = some indexes →
        buildPlanHeads A pool bucket from_ stmt indexes = some heads →
        heads ≠ [] →
        buildSelectStatementPlans A p stmt =
          some (heads.map fun h => Plan.mk (wrapStages h (specifiedStages stmt)),
            [])) := by
  constructor
  · exact buildSelectStages_eq_specified
  · intro A p stmt from_ pool bucket indexes heads hfrom hpool hbucket hidx
      hheads hne
    simp only [buildSelectStatementPlans, hfrom, hpool, hbucket, hidx, hheads]
    cases heads with
    | nil => exact absurd rfl hne
    | cons h t =>
        simp [buildSelectStages_eq_specified]


/-- Witness for C1 at a concrete planner and statement: a catalog with one
primary index yields exactly one completed plan, whose stages above its one
plan head are the specified ones. -/
theorem select_stage_order_witness :
    buildSelectStatementPlans modelOps
        ⟨⟨fun s => if s = "p" then
            some ⟨"p", fun b => if b = "b" then
              some ⟨"b", some [CatalogIndex.primary "#primary"]⟩
            else none⟩
          else none⟩, "p"⟩
        ⟨[⟨true, none, ""⟩], some (From.mk "" "b" none "b" none), none, none,
          none, none, -1, 0, false, false⟩ =
      some ([Plan.mk (wrapStages
        (PlanElement.Fetch (PlanElement.Scan "p" "b" "#primary" none) "p" "b"
          none "b")
        (specifiedStages ⟨[⟨true, none, ""⟩],
          some (From.mk "" "b" none "b" none), none, none, none, none, -1, 0,
          false, false⟩))], []) :=
  select_stage_order.2 modelOps
    ⟨⟨fun s => if s = "p" then
        some ⟨"p", fun b => if b = "b" then
          some ⟨"b", some [CatalogIndex.primary "#primary"]⟩
        else none⟩
      else none⟩, "p"⟩
    ⟨[⟨true, none, ""⟩], some (From.mk "" "b" none "b" none), none, none,
      none, none, -1, 0, false, false⟩
    (From.mk "" "b" none "b" none)
    ⟨"p", fun b => if b = "b" then
      some ⟨"b", some [CatalogIndex.primary "#primary"]⟩ else none⟩
    ⟨"b", some [CatalogIndex.primary "#primary"]⟩
    [CatalogIndex.primary "#primary"]
    [PlanElement.Fetch (PlanElement.Scan "p" "b" "#primary" none) "p" "b"
      none "b"]
    (by rfl) (by rfl) (by rfl) (by rfl)
    (by simp [buildPlanHeads, buildPlanHead, overJoins, From.Over,
      From.Projection, From.As]) (by simp)

end Tuqtng

namespace Tuqtng

/-! ## Theorems about the covering-index check (claim C5) -/

/-- C5 (amended): `DoesIndexCoverStatement` returns false immediately when
the From chain has a nested Over level, and false when the key cannot be put
in formal notation; otherwise it returns true exactly when every projection
entry is a non-wildcard expression passing the dependency check against the
determining set of all formally-notated key components, the WHERE clause
passes, each GROUP BY term passes together with the HAVING clause — the
HAVING clause being checked only when GROUP BY is present — and each ORDER
BY term passes. -/
theorem doesIndexCover_dispatch (A : AstOps) (index : RangeIndex)
    (stmt : SelectStatement) (f : From) (hf : stmt.From = some f) :
    (∀ g, f.Over = some g → DoesIndexCoverStatement A index stmt = some false) ∧
    (f.Over = none →
      IndexKeyInFormalNotation A.fnot index.Key f.As = none →
      DoesIndexCoverStatement A index stmt = some false) ∧
    (∀ fkey, f.Over = none →
      IndexKeyInFormalNotation A.fnot index.Key f.As = some fkey →
      DoesIndexCoverStatement A index stmt =
        some ((stmt.Select.all fun re => !re.Star &&
                 (match re.Expr with
                  | some e => A.depCheck fkey e
                  | none => false)) &&
              ((match stmt.Where with
                | some w => A.depCheck fkey w
                | none => true) &&
               ((match stmt.GroupBy with
                 | some gl => gl.all (A.depCheck fkey) &&
                     (match stmt.Having with
                      | some h => A.depCheck fkey h
                      | none => true)
                 | none => true) &&
                (match stmt.OrderBy with
                 | some ol => ol.all fun se => A.depCheck fkey se.Expr
                 | none => true))))) := by
  refine ⟨?_, ?_, ?_⟩
  · intro g hg
    simp only [DoesIndexCoverStatement, hf, hg]
  · intro hov hk
    simp only [DoesIndexCoverStatement, hf, hov, hk]
  · intro fkey hov hk
    simp only [DoesIndexCoverStatement, hf, hov, hk]
    rcases h1 : (stmt.Select.all fun re => !re.Star &&
        (match re.Expr with
         | some e => A.depCheck fkey e
         | none => false)) with _ | _ <;>
      rcases h2 : (match stmt.Where with
        | some w => A.depCheck fkey w
        | none => true) with _ | _ <;>
      rcases h3 : (match stmt.GroupBy with
        | some gl => gl.all (A.depCheck fkey) &&
            (match stmt.Having with
             | some h => A.depCheck fkey h
             | none => true)
        | none => true) with _ | _ <;>
      rcases h4 : (match stmt.OrderBy with
        | some ol => ol.all fun se => A.depCheck fkey se.Expr
        | none => true) with _ | _ <;>
      simp [h1, h2, h3, h4]

/-- Counterexample to C5 as stated: a statement whose HAVING clause is
present and fails the dependency check while GROUP BY is absent is still
reported covered (the source only checks HAVING inside its `GroupBy != nil`
branch), even though its From chain has no Over level and no projection
entry is a wildcard — the claim would require false here. -/
theorem doesIndexCover_claim_counterexample :
    DoesIndexCoverStatement modelOps ⟨"ix", [Expr.prop "a"]⟩
        ⟨[⟨false, some (Expr.qprop "b" "a"), ""⟩],
          some (From.mk "" "b" none "b" none), none, none,
          some (Expr.prop "z"), none, -1, 0, false, false⟩ = some true ∧
    modelOps.depCheck [Expr.qprop "b" "a"] (Expr.prop "z") = false ∧
    IndexKeyInFormalNotation modelOps.fnot [Expr.prop "a"] "b" =
      some [Expr.qprop "b" "a"] := by
  refine ⟨?_, ?_, ?_⟩ <;> rfl

/-- Witness for C5 at a concrete covered statement exercising every
location: projection, WHERE, GROUP BY with HAVING, and ORDER BY all
reference the key component, so the index is reported covering. -/
theorem doesIndexCover_dispatch_witness :
    DoesIndexCoverStatement modelOps ⟨"ix", [Expr.prop "a"]⟩
        ⟨[⟨false, some (Expr.qprop "b" "a"), ""⟩],
          some (From.mk "" "b" none "b" none), some (Expr.qprop "b" "a"),
          some [Expr.qprop "b" "a"], some (Expr.qprop "b" "a"),
          some [⟨Expr.qprop "b" "a", true⟩], -1, 0, false, false⟩ =
      some true := by
  have h := (doesIndexCover_dispatch modelOps ⟨"ix", [Expr.prop "a"]⟩
    ⟨[⟨false, some (Expr.qprop "b" "a"), ""⟩],
      some (From.mk "" "b" none "b" none), some (Expr.qprop "b" "a"),
      some [Expr.qprop "b" "a"], some (Expr.qprop "b" "a"),
      some [⟨Expr.qprop "b" "a", true⟩], -1, 0, false, false⟩
    (From.mk "" "b" none "b" none) rfl).2.2 [Expr.qprop "b" "a"] rfl (by rfl)
  rw [h]
  rfl

end Tuqtng

namespace Tuqtng

/-! ## Theorems about the projection-only usability check (claim C6) -/

/-- A result entry the projection loop accepts: not a wildcard, an aggregate
function call with at least one operand, whose first operand is not a
wildcard and whose first operand's expression passes the dependency check.
Operands beyond the first are not inspected. -/
def projEntryOk (check : Expr → Bool) (re : ResultExpression) : Bool :=
  !re.Star &&
  (match re.Expr with
   | some (Expr.aggCall _ ((st, e0) :: _)) => !st && check e0
   | _ => false)

/-- A result entry whose expression is a MIN aggregate call. -/
def projEntryMin (re : ResultExpression) : Bool :=
  match re.Expr with
  | some (Expr.aggCall AggKind.min _) => true
  | _ => false

/-- A named non-MIN aggregate kind is never the MIN kind. -/
theorem aggKind_other_ne_min (s : String) :
    (AggKind.other s == AggKind.min) = false := rfl

/-- The projection loop succeeds exactly when every entry is accepted, and
then returns the running flag conjoined with "every entry is a MIN
aggregate". -/
theorem projectionLoop_eq (check : Expr → Bool) :
    ∀ (l : List ResultExpression) (b : Bool),
      projectionLoop check l b =
        (if l.all (projEntryOk check) then some (b && l.all projEntryMin)
         else none) := by
  intro l
  induction l with
  | nil => intro b; simp [projectionLoop]
  | cons re rest ih =>
      intro b
      rcases re with ⟨star, oexpr, a⟩
      cases star
      · cases oexpr with
        | none => simp [projectionLoop, projEntryOk]
        | some e =>
            cases e
            case aggCall kind operands =>
              cases operands with
              | nil => simp [projectionLoop, projEntryOk]
              | cons p ops2 =>
                  rcases p with ⟨st, e0⟩
                  cases st
                  · rcases hC : check e0 with _ | _
                    · simp [projectionLoop, projEntryOk, hC]
                    · cases kind <;>
                        simp [projectionLoop, projEntryOk, projEntryMin, hC,
                          ih, Bool.and_assoc, aggKind_other_ne_min]
                  · simp [projectionLoop, projEntryOk]
            all_goals simp [projectionLoop, projEntryOk]
      · simp [projectionLoop, projEntryOk]

/-- C6 (amended): the projection-only check reports the index usable exactly
when every result entry is a non-wildcard aggregate function call with at
least one operand whose first operand is non-wildcard and
dependency-determined by the first formally-notated key component (operands
beyond the first are ignored); on success the ranges are the single open
"is defined" range over that key, with row limit 1 exactly when every
aggregate is MIN and no row limit otherwise. -/
theorem canIUseProjection_only_aggregates (A : AstOps) (index : RangeIndex)
    (resultExprList : List ResultExpression) (bucket : String)
    (k0 : Expr) (krest : List Expr)
    (hk : IndexKeyInFormalNotation A.fnot index.Key bucket = some (k0 :: krest))
    (hsarg : A.sarg k0 (Expr.isNotNull k0) = some [isDefinedRange]) :
    CanIUseThisIndexForThisProjectionNoWhereNoGroupClause A index
        resultExprList bucket =
      some (if resultExprList.all (projEntryOk (A.depCheck [k0])) then
              ((true : Bool), [ScanRange.mk (some SValue.null) none false false
                 (if resultExprList.all projEntryMin then 1 else 0)])
            else ((false : Bool), ([] : List ScanRange))) := by
  simp only [CanIUseThisIndexForThisProjectionNoWhereNoGroupClause, hk,
    projectionLoop_eq]
  rcases hall : resultExprList.all (projEntryOk (A.depCheck [k0])) with _ | _
  · simp [hall]
  · simp only [hall, if_true, Bool.true_and, hsarg]
    rcases hmin : resultExprList.all projEntryMin with _ | _ <;>
      simp [hmin, isDefinedRange]

/-- Counterexample to C6 as stated: a result list whose only entry is a MIN
aggregate call with two operands — not "exactly one" — is still reported
usable (the source only checks that at least one operand exists and
inspects the first; the second operand, which would even fail the
dependency check, is ignored), with the row-limited "is defined" range. -/
theorem canIUseProjection_claim_counterexample :
    CanIUseThisIndexForThisProjectionNoWhereNoGroupClause modelOps
        ⟨"ix", [Expr.prop "a"]⟩
        [⟨false, some (Expr.aggCall AggKind.min
            [(false, Expr.qprop "b" "a"), (false, Expr.prop "z")]), ""⟩]
        "b" =
      some (true, [ScanRange.mk (some SValue.null) none false false 1]) ∧
    modelOps.depCheck [Expr.qprop "b" "a"] (Expr.prop "z") = false := by
  exact ⟨rfl, rfl⟩

/-- Witness for C6 at a concrete single-operand MIN aggregate projection:
the index is usable with the "is defined" range capped at one row. -/
theorem canIUseProjection_only_aggregates_witness :
    CanIUseThisIndexForThisProjectionNoWhereNoGroupClause modelOps
        ⟨"ix", [Expr.prop "a"]⟩
        [⟨false, some (Expr.aggCall AggKind.min [(false, Expr.qprop "b" "a")]),
          ""⟩] "b" =
      some (true, [ScanRange.mk (some SValue.null) none false false 1]) := by
  have h := canIUseProjection_only_aggregates modelOps ⟨"ix", [Expr.prop "a"]⟩
    [⟨false, some (Expr.aggCall AggKind.min [(false, Expr.qprop "b" "a")]),
      ""⟩] "b" (Expr.qprop "b" "a") [] (by rfl) (by rfl)
  rw [h]
  rfl

end Tuqtng

namespace Tuqtng

/-! ## Theorems about index skipping and the no-usable-indexes error
(claim C7) -/

/-- C7: with no WHERE clause, every range index is skipped — the plan heads
of an index list are those of the list with all range indexes removed — and
whenever resolution succeeds but zero plan heads were produced, the planner
emits no plans and exactly one generic "No usable indexes found" error
naming the bucket. -/
theorem planner_no_usable_indexes (A : AstOps) :
    (∀ (pool : Pool) (bucket : Bucket) (from_ : From) (stmt : SelectStatement)
        (idxs : List CatalogIndex), stmt.Where = none →
        buildPlanHeads A pool bucket from_ stmt idxs =
          buildPlanHeads A pool bucket from_ stmt
            (idxs.filter fun i =>
              match i with
              | CatalogIndex.range _ _ => false
              | _ => true)) ∧
    (∀ (p : SimplePlanner) (stmt : SelectStatement) (from_ : From)
        (pool : Pool) (bucket : Bucket) (indexes : List CatalogIndex),
        (match stmt.GetFrom with
         | none => From.mk POOL_NAME BUCKET_NAME_DUAL none "" none
         | some f => f) = from_ →
        p.site.PoolByName
            (if from_.Pool = "" then p.defaultPool else from_.Pool) = some pool →
        pool.BucketByName from_.Bucket = some bucket →
        bucket.Indexes = some indexes →
        buildPlanHeads A pool bucket from_ stmt indexes = some [] →
        buildSelectStatementPlans A p stmt =
          some ([], [QError.generic
            ("No usable indexes found for bucket " ++ from_.Bucket)])) := by
  constructor
  · intro pool bucket from_ stmt idxs hw
    induction idxs with
    | nil => rfl
    | cons idx rest ih =>
        cases idx with
        | primary name => simp [buildPlanHeads, buildPlanHead, ih]
        | range name key => simp [buildPlanHeads, buildPlanHead, hw, ih]
        | unsupported name => simp [buildPlanHeads, buildPlanHead, ih]
  · intro p stmt from_ pool bucket indexes hfrom hpool hbucket hidx hheads
    simp [buildSelectStatementPlans, hfrom, hpool, hbucket, hidx, hheads]

/-- Witness for C7 at a concrete catalog: a bucket whose only index is a
range index, queried by a Select with no WHERE clause, produces no plans and
exactly the generic no-usable-indexes error for that bucket. -/
theorem planner_no_usable_indexes_witness :
    buildSelectStatementPlans modelOps
        ⟨⟨fun s => if s = "p" then
            some ⟨"p", fun b => if b = "b" then
              some ⟨"b", some [CatalogIndex.range "ix" [Expr.prop "a"]]⟩
            else none⟩
          else none⟩, "p"⟩
        ⟨[⟨true, none, ""⟩], some (From.mk "" "b" none "b" none), none, none,
          none, none, -1, 0, false, false⟩ =
      some ([], [QError.generic
        ("No usable indexes found for bucket " ++ "b")]) := by
  refine (planner_no_usable_indexes modelOps).2
    ⟨⟨fun s => if s = "p" then
        some ⟨"p", fun b => if b = "b" then
          some ⟨"b", some [CatalogIndex.range "ix" [Expr.prop "a"]]⟩
        else none⟩
      else none⟩, "p"⟩
    ⟨[⟨true, none, ""⟩], some (From.mk "" "b" none "b" none), none, none,
      none, none, -1, 0, false, false⟩
    (From.mk "" "b" none "b" none)
    ⟨"p", fun b => if b = "b" then
      some ⟨"b", some [CatalogIndex.range "ix" [Expr.prop "a"]]⟩ else none⟩
    ⟨"b", some [CatalogIndex.range "ix" [Expr.prop "a"]]⟩
    [CatalogIndex.range "ix" [Expr.prop "a"]]
    rfl (by rfl) (by rfl) (by rfl) ?_
  rw [(planner_no_usable_indexes modelOps).1 _ _ _ _ _ rfl]
  simp [buildPlanHeads]

end Tuqtng

namespace Tuqtng

/-! ## Theorems about the Create/Drop-index pool error (claim C8) -/

/-- C8: when the pool lookup fails in CreateIndex or DropIndex planning —
even for an explicit pool name different from the planner's default — the
emitted pool-not-found error names the planner's configured default pool,
and no plan is emitted. -/
theorem createDropIndex_default_pool_error (p : SimplePlanner) :
    (∀ stmt : CreateIndexStatement, stmt.Pool ≠ "" →
        stmt.Pool ≠ p.defaultPool →
        p.site.PoolByName stmt.Pool = none →
        buildCreateIndexStatementPlans p stmt =
          ([], [QError.poolDoesNotExist p.defaultPool])) ∧
    (∀ stmt : DropIndexStatement, stmt.Pool ≠ "" →
        stmt.Pool ≠ p.defaultPool →
        p.site.PoolByName stmt.Pool = none →
        buildDropIndexStatementPlans p stmt =
          ([], [QError.poolDoesNotExist p.defaultPool])) := by
  constructor
  · intro stmt h1 _ h3
    simp [buildCreateIndexStatementPlans, if_neg h1, h3]
  · intro stmt h1 _ h3
    simp [buildDropIndexStatementPlans, if_neg h1, h3]

/-- Witness for C8 at a concrete planner whose site has no pools at all: an
explicit pool name different from the default still yields the error naming
the default pool, for both builders. -/
theorem createDropIndex_default_pool_error_witness :
    buildCreateIndexStatementPlans ⟨⟨fun _ => none⟩, "default"⟩
        ⟨"other", "b", "ix", "view", [], false⟩ =
      ([], [QError.poolDoesNotExist "default"]) ∧
    buildDropIndexStatementPlans ⟨⟨fun _ => none⟩, "default"⟩
        ⟨"other", "b", "ix", false⟩ =
      ([], [QError.poolDoesNotExist "default"]) :=
  ⟨(createDropIndex_default_pool_error ⟨⟨fun _ => none⟩, "default"⟩).1
      ⟨"other", "b", "ix", "view", [], false⟩ (by decide) (by decide) rfl,
   (createDropIndex_default_pool_error ⟨⟨fun _ => none⟩, "default"⟩).2
      ⟨"other", "b", "ix", false⟩ (by decide) (by decide) rfl⟩

end Tuqtng

namespace Tuqtng

/-! ## Theorems about the nil-From dereference in Select planning
(claim C10) -/

/-- Any index list containing a range index makes the planner's index loop
panic when the statement has a WHERE clause but no From clause: the
usability check reads the bucket name from the statement's original
(nil) From field. -/
theorem buildPlanHeads_panics_nil_from (A : AstOps) (pool : Pool)
    (bucket : Bucket) (from_ : From) (stmt : SelectStatement) (w : Expr)
    (hw : stmt.Where = some w) (hf : stmt.From = none) :
    ∀ idxs : List CatalogIndex, (∃ n k, CatalogIndex.range n k ∈ idxs) →
      buildPlanHeads A pool bucket from_ stmt idxs = none := by
  intro idxs
  induction idxs with
  | nil =>
      rintro ⟨n, k, h⟩
      cases h
  | cons idx rest ih =>
      rintro ⟨n, k, hmem⟩
      cases idx with
      | range nm key => simp [buildPlanHeads, buildPlanHead, hw, hf]
      | primary nm =>
          have hr : ∃ n k, CatalogIndex.range n k ∈ rest := by
            rcases List.mem_cons.mp hmem with h | h
            · cases h
            · exact ⟨n, k, h⟩
          simp [buildPlanHeads, buildPlanHead, ih hr]
      | unsupported nm =>
          have hr : ∃ n k, CatalogIndex.range n k ∈ rest := by
            rcases List.mem_cons.mp hmem with h | h
            · cases h
            · exact ⟨n, k, h⟩
          simp [buildPlanHeads, buildPlanHead, ih hr]

/-- C10: the range-index usability check is called with the bucket name read
from the statement's original From field, not from the locally substituted
synthetic one; so for every Select with no FROM clause and a WHERE clause
whose resolved (synthetic system) bucket enumerates a range index, the
planner run reaches the nil-From dereference and the panic branch of the
embedding — `buildSelectStatementPlans` evaluates to `none`. -/
theorem select_nil_from_panic (A : AstOps) (p : SimplePlanner)
    (stmt : SelectStatement) (w : Expr) (pool : Pool) (bucket : Bucket)
    (indexes : List CatalogIndex)
    (hf : stmt.From = none) (hw : stmt.Where = some w)
    (hpool : p.site.PoolByName POOL_NAME = some pool)
    (hbucket : pool.BucketByName BUCKET_NAME_DUAL = some bucket)
    (hidx : bucket.Indexes = some indexes)
    (hrange : ∃ n k, CatalogIndex.range n k ∈ indexes) :
    buildSelectStatementPlans A p stmt = none := by
  have hheads := buildPlanHeads_panics_nil_from A pool bucket
    (From.mk POOL_NAME BUCKET_NAME_DUAL none "" none) stmt w hw hf
    indexes hrange
  simp only [buildSelectStatementPlans, SelectStatement.GetFrom, hf,
    From.Pool, From.Bucket]
  simp only [if_neg (show ¬(POOL_NAME = "") by decide)]
  simp only [hpool, hbucket, hidx, hheads]

/-- Witness for C10 at a concrete catalog whose synthetic system pool and
dual bucket expose one range index: a FROM-less Select with a WHERE clause
makes the planner run hit the nil dereference. -/
theorem select_nil_from_panic_witness :
    buildSelectStatementPlans modelOps
        ⟨⟨fun s => if s = POOL_NAME then
            some ⟨POOL_NAME, fun b => if b = BUCKET_NAME_DUAL then
              some ⟨BUCKET_NAME_DUAL,
                some [CatalogIndex.range "ix" [Expr.prop "a"]]⟩
            else none⟩
          else none⟩, "p"⟩
        ⟨[⟨true, none, ""⟩], none, some (Expr.litBool true), none, none, none,
          -1, 0, false, false⟩ = none :=
  select_nil_from_panic modelOps
    ⟨⟨fun s => if s = POOL_NAME then
        some ⟨POOL_NAME, fun b => if b = BUCKET_NAME_DUAL then
          some ⟨BUCKET_NAME_DUAL,
            some [CatalogIndex.range "ix" [Expr.prop "a"]]⟩
        else none⟩
      else none⟩, "p"⟩
    ⟨[⟨true, none, ""⟩], none, some (Expr.litBool true), none, none, none,
      -1, 0, false, false⟩
    (Expr.litBool true)
    ⟨POOL_NAME, fun b => if b = BUCKET_NAME_DUAL then
      some ⟨BUCKET_NAME_DUAL,
        some [CatalogIndex.range "ix" [Expr.prop "a"]]⟩
    else none⟩
    ⟨BUCKET_NAME_DUAL, some [CatalogIndex.range "ix" [Expr.prop "a"]]⟩
    [CatalogIndex.range "ix" [Expr.prop "a"]]
    rfl rfl (by rfl) (by rfl) rfl
    ⟨"ix", [Expr.prop "a"], by simp⟩

end Tuqtng

namespace Tuqtng

/-! ## A spec-modelled parser fragment (claim C9).  The goyacc parser is not
part of the source excerpt — only its test file is — so the grammar fragment
the claim exercises is modelled from the specification (§4.1, §6, §8.3,
§8.4): a single-entry result list, an optional FROM naming a bucket (left
nil in the parsed statement, per the AST-shape tests), an optional WHERE
with a primary expression, an optional single-term ORDER BY, and an optional
LIMIT with an optional OFFSET, where OFFSET requires LIMIT; a statement with
no LIMIT clause gets the unspecified sentinel −1 and Offset 0. -/

/-- Modelled from the spec: `ast.NewStarResultExpression`, the bare `*`
result entry. -/
def starResultExpression : ResultExpression := ⟨true, none, ""⟩

/-- Modelled from the spec: `ast.NewResultExpression`, an expression result
entry with no alias. -/
def exprResultExpression (e : Expr) : ResultExpression := ⟨false, some e, ""⟩

/-- The keywords of the modelled grammar fragment. -/
def keywords : List String :=
  ["SELECT", "FROM", "WHERE", "ORDER", "BY", "LIMIT", "OFFSET", "DISTINCT"]

/-- An unescaped identifier token: nonempty, not a keyword, not starting
with a digit. -/
def isIdentTok (t : String) : Bool :=
  !(keywords.contains t) &&
  (match t.toList with
   | [] => false
   | c :: _ => !c.isDigit)

/-- Decimal digits to a number (kernel-evaluable stand-in for the string
library's numeral parsing). -/
def digitsToNat : List Char → Nat → Option Nat
  | [], acc => some acc
  | c :: rest, acc =>
      if c.isDigit then digitsToNat rest (acc * 10 + (c.toNat - 48)) else none

/-- A nonempty all-digit token as a natural number. -/
def tokToNat (t : String) : Option Nat :=
  match t.toList with
  | [] => none
  | cs => digitsToNat cs 0

/-- Modelled from the spec: a primary expression token — `true`, `false`, a
natural-number literal, or a property reference. -/
def parsePrimary (t : String) : Option Expr :=
  if t = "true" then some (Expr.litBool true)
  else if t = "false" then some (Expr.litBool false)
  else
    match tokToNat t with
    | some n => some (Expr.litNum n)
    | none => if isIdentTok t then some (Expr.prop t) else none

/-- Modelled from the spec: one result-list entry — `*` or an identifier. -/
def parseResultEntry :
    List String → Option (List ResultExpression × List String)
  | "*" :: rest => some ([starResultExpression], rest)
  | t :: rest =>
      if isIdentTok t then some ([exprResultExpression (Expr.prop t)], rest)
      else none
  | [] => none

/-- Modelled from the spec: an optional FROM clause naming a bucket; the
parsed statement's From field stays nil (§8.3). -/
def parseFromOpt : List String → Option (List String)
  | "FROM" :: t :: rest => if isIdentTok t then some rest else none
  | ["FROM"] => none
  | toks => some toks

/-- Modelled from the spec: an optional WHERE clause with one primary
expression. -/
def parseWhereOpt : List String → Option (Option Expr × List String)
  | "WHERE" :: t :: rest => (parsePrimary t).map fun e => (some e, rest)
  | ["WHERE"] => none
  | toks => some (none, toks)

/-- Modelled from the spec: an optional single-term ORDER BY, default
ascending. -/
def parseOrderOpt :
    List String → Option (Option (List SortExpression) × List String)
  | "ORDER" :: "BY" :: t :: rest =>
      if isIdentTok t then some (some [⟨Expr.prop t, true⟩], rest) else none
  | "ORDER" :: _ => none
  | toks => some (none, toks)

/-- Modelled from the spec: the trailing LIMIT/OFFSET clause — nothing left
yields the unspecified sentinel −1 with offset 0, `LIMIT n` yields (n, 0),
`LIMIT n OFFSET k` yields (n, k), and anything else (including OFFSET
without LIMIT) is a syntax error. -/
def parseLimitOffset : List String → Option (Int × Int)
  | [] => some (-1, 0)
  | ["LIMIT", n] => (tokToNat n).map fun ln => ((ln : Int), 0)
  | ["LIMIT", n, "OFFSET", k] =>
      match tokToNat n, tokToNat k with
      | some ln, some ko => some ((ln : Int), (ko : Int))
      | _, _ => none
  | _ => none

/-- Whitespace tokenization, written by structural recursion over the
character list (so that concrete parses evaluate inside the kernel); empty
runs between spaces produce no token. -/
def tokenizeAux : List Char → List Char → List String
  | [], cur => if cur.isEmpty then [] else [String.mk cur.reverse]
  | c :: rest, cur =>
      if c = ' ' then
        if cur.isEmpty then tokenizeAux rest []
        else String.mk cur.reverse :: tokenizeAux rest []
      else tokenizeAux rest (c :: cur)

/-- The whitespace tokens of a query string. -/
def tokensOf (s : String) : List String := tokenizeAux s.toList []

/-- Modelled from the spec: `Parse` over the grammar fragment above —
whitespace-tokenize, require SELECT, then result list, optional FROM,
optional WHERE, optional ORDER BY, and the LIMIT/OFFSET tail consuming the
rest of the input. -/
def Parse (s : String) : Option SelectStatement :=
  match tokensOf s with
  | "SELECT" :: rest =>
      match parseResultEntry rest with
      | none => none
      | some (sel, rest1) =>
        match parseFromOpt rest1 with
        | none => none
        | some rest2 =>
          match parseWhereOpt rest2 with
          | none => none
          | some (w, rest3) =>
            match parseOrderOpt rest3 with
            | none => none
            | some (ob, rest4) =>
              match parseLimitOffset rest4 with
              | none => none
              | some (lim, off) =>
                  some ⟨sel, none, w, none, none, ob, lim, off, false, false⟩
  | _ => none

end Tuqtng

namespace Tuqtng

/-! ## Theorems about the parsed LIMIT/OFFSET defaults (claim C9) -/

/-- The result-entry parse leaves a remainder drawn from the input
tokens. -/
theorem parseResultEntry_mem :
    ∀ (toks : List String) (sel : List ResultExpression) (rest : List String),
      parseResultEntry toks = some (sel, rest) → ∀ x ∈ rest, x ∈ toks := by
  intro toks sel rest h x hx
  rw [parseResultEntry.eq_def] at h
  split at h
  · simp only [Option.some.injEq, Prod.mk.injEq] at h
    rw [← h.2] at hx
    exact List.mem_cons_of_mem _ hx
  · split at h
    · simp only [Option.some.injEq, Prod.mk.injEq] at h
      rw [← h.2] at hx
      exact List.mem_cons_of_mem _ hx
    · exact absurd h (by simp)
  · exact absurd h (by simp)

/-- The FROM-clause parse leaves a remainder drawn from the input tokens. -/
theorem parseFromOpt_mem :
    ∀ (toks rest : List String),
      parseFromOpt toks = some rest → ∀ x ∈ rest, x ∈ toks := by
  intro toks rest h x hx
  rw [parseFromOpt.eq_def] at h
  split at h
  · split at h
    · simp only [Option.some.injEq] at h
      rw [← h] at hx
      exact List.mem_cons_of_mem _ (List.mem_cons_of_mem _ hx)
    · exact absurd h (by simp)
  · exact absurd h (by simp)
  · simp only [Option.some.injEq] at h
    rw [← h] at hx
    exact hx

/-- The WHERE-clause parse leaves a remainder drawn from the input
tokens. -/
theorem parseWhereOpt_mem :
    ∀ (toks : List String) (w : Option Expr) (rest : List String),
      parseWhereOpt toks = some (w, rest) → ∀ x ∈ rest, x ∈ toks := by
  intro toks w rest h x hx
  rw [parseWhereOpt.eq_def] at h
  split at h
  · rcases hp : parsePrimary _ with _ | e <;> rw [hp] at h
    · exact absurd h (by simp)
    · simp only [Option.map_some', Option.some.injEq, Prod.mk.injEq] at h
      rw [← h.2] at hx
      exact List.mem_cons_of_mem _ (List.mem_cons_of_mem _ hx)
  · exact absurd h (by simp)
  · simp only [Option.some.injEq, Prod.mk.injEq] at h
    rw [← h.2] at hx
    exact hx

/-- The ORDER BY parse leaves a remainder drawn from the input tokens. -/
theorem parseOrderOpt_mem :
    ∀ (toks : List String) (ob : Option (List SortExpression))
      (rest : List String),
      parseOrderOpt toks = some (ob, rest) → ∀ x ∈ rest, x ∈ toks := by
  intro toks ob rest h x hx
  rw [parseOrderOpt.eq_def] at h
  split at h
  · split at h
    · simp only [Option.some.injEq, Prod.mk.injEq] at h
      rw [← h.2] at hx
      exact List.mem_cons_of_mem _
        (List.mem_cons_of_mem _ (List.mem_cons_of_mem _ hx))
    · exact absurd h (by simp)
  · exact absurd h (by simp)
  · simp only [Option.some.injEq, Prod.mk.injEq] at h
    rw [← h.2] at hx
    exact hx

/-- C9: parsing "SELECT * FROM test LIMIT 10 OFFSET 3" yields Limit 10 and
Offset 3; and every successfully parsed Select whose token stream has no
LIMIT clause gets the unspecified sentinel −1 for Limit and 0 for
Offset. -/
theorem parse_limit_offset_defaults :
    ((Parse "SELECT * FROM test LIMIT 10 OFFSET 3").map
        (fun st => (st.Limit, st.Offset)) = some (10, 3)) ∧
    (∀ (s : String) (stmt : SelectStatement), Parse s = some stmt →
        "LIMIT" ∉ tokensOf s → stmt.Limit = -1 ∧ stmt.Offset = 0) := by
  constructor
  · rfl
  · intro s stmt h hnl
    rw [Parse.eq_def] at h
    split at h
    case _ rest heq =>
      rw [heq] at hnl
      have hnl0 : "LIMIT" ∉ rest := fun hc => hnl (List.mem_cons_of_mem _ hc)
      split at h
      case _ => exact absurd h (by simp)
      case _ sel rest1 heq1 =>
        have hnl1 : "LIMIT" ∉ rest1 := fun hc =>
          hnl0 (parseResultEntry_mem rest sel rest1 heq1 _ hc)
        split at h
        case _ => exact absurd h (by simp)
        case _ rest2 heq2 =>
          have hnl2 : "LIMIT" ∉ rest2 := fun hc =>
            hnl1 (parseFromOpt_mem rest1 rest2 heq2 _ hc)
          split at h
          case _ => exact absurd h (by simp)
          case _ w rest3 heq3 =>
            have hnl3 : "LIMIT" ∉ rest3 := fun hc =>
              hnl2 (parseWhereOpt_mem rest2 w rest3 heq3 _ hc)
            split at h
            case _ => exact absurd h (by simp)
            case _ ob rest4 heq4 =>
              have hnl4 : "LIMIT" ∉ rest4 := fun hc =>
                hnl3 (parseOrderOpt_mem rest3 ob rest4 heq4 _ hc)
              split at h
              case _ => exact absurd h (by simp)
              case _ lim off heq5 =>
                injection h with h2
                subst h2
                rw [parseLimitOffset.eq_def] at heq5
                split at heq5
                · simp only [Option.some.injEq, Prod.mk.injEq] at heq5
                  exact ⟨heq5.1.symm, heq5.2.symm⟩
                · exact absurd (by simp : "LIMIT" ∈ ["LIMIT"] ++ [_]) hnl4
                · exact absurd (by simp) hnl4
                · exact absurd heq5 (by simp)
    case _ => exact absurd h (by simp)


/-- Witness for C9 at the concrete no-LIMIT query "SELECT a FROM test":
its parse succeeds with the −1 sentinel and offset 0. -/
theorem parse_limit_offset_defaults_witness :
    (Parse "SELECT a FROM test").map (fun st => (st.Limit, st.Offset)) =
      some (-1, 0) := by
  have h := parse_limit_offset_defaults.2 "SELECT a FROM test"
    ⟨[exprResultExpression (Expr.prop "a")], none, none, none, none, none,
      -1, 0, false, false⟩ (by rfl) (by decide)
  calc (Parse "SELECT a FROM test").map (fun st => (st.Limit, st.Offset))
      = some ((⟨[exprResultExpression (Expr.prop "a")], none, none, none,
          none, none, -1, 0, false, false⟩ : SelectStatement).Limit,
        (⟨[exprResultExpression (Expr.prop "a")], none, none, none, none,
          none, -1, 0, false, false⟩ : SelectStatement).Offset) := by rfl
    _ = some (-1, 0) := by rw [h.1, h.2]

end Tuqtng
